import Mathlib

/-!
Verification development for the plymouth-bin-scraper repository.

The core of the repository is the text-to-structured-data extraction
pipeline in `scraper.py` (`extract_collections`, `parse_any_date`,
`classify_header`, `build_ics`, `scrape`), the sqlite-backed cache in
`cache.py` (`get_cache`, `set_cache`) and the reminder evaluation in
`notify.py` (`main`).  Below, the relevant Python functions are embedded
shallowly as Lean functions over `List Char` / `String`:

* Python regular expressions from `DATE_PATTERNS` and
  `HEADER_TO_SERVICE` are embedded as explicit scanning functions with
  the same leftmost-match, ordered-alternation and greedy-quantifier
  (with backtracking) semantics, restricted to the ASCII texts this
  scraper handles.
* `dateutil.parser.parse(..., dayfirst=True)` (an external library) is
  modelled on the matched substrings: day-first resolution with the
  documented swap when the second numeric field exceeds 12, dateutil's
  two-digit-year window fixed at reference year 2025, and calendar
  validation (a failing candidate is discarded, as the `except` branch
  of `parse_any_date` does).
* Python `date` values are the `PDate` structure; `date.isoformat()` is
  `PDate.isoformat` (zero-padded `YYYY-MM-DD`, exact for the year range
  1..9999 guaranteed by the date patterns).
* The sqlite table of `cache.py` (`key TEXT PRIMARY KEY, ts, json`) is
  an association list updated with REPLACE semantics; `json.dumps` /
  `json.loads` round-tripping is modelled as the identity (content
  equality), and the wall clock is an explicit `now : Int` argument.
* The `ics` library gives every constructed `Event` a fresh uid, so the
  `Calendar.events` set holds one element per `Event()` constructed by
  `build_ics`; it is modelled as the list of events in construction
  order.
-/

set_option maxRecDepth 16384

/-- ASCII digit test; models the regex class `\d` on the ASCII page text. -/
def isDigitCh (c : Char) : Bool := ('0' ≤ c && c ≤ '9')

/-- Models the regex class `\w` (word character), ASCII fragment. -/
def isWordCh (c : Char) : Bool := c.isAlpha || isDigitCh c || c = '_'

/-- Models the regex class `\s` and Python `str.strip` whitespace, ASCII fragment. -/
def isSpaceCh (c : Char) : Bool :=
  c = ' ' || c = '\t' || c = '\n' || c = '\x0d' || c = '\x0b' || c = '\x0c'

/-- ASCII lower-casing of one character, as Python `str.lower` acts on the texts here. -/
def charLower (c : Char) : Char :=
  if 'A' ≤ c && c ≤ 'Z' then Char.ofNat (c.toNat + 32) else c

/-- ASCII upper-casing of one character. -/
def charUpper (c : Char) : Char :=
  if 'a' ≤ c && c ≤ 'z' then Char.ofNat (c.toNat - 32) else c

/-- Character list of a string literal. -/
def lit (s : String) : List Char := s.data

/-- Case-insensitive prefix test (the `re.I` flag of the source patterns). -/
def ciStarts : List Char → List Char → Bool
  | [], _ => true
  | _ :: _, [] => false
  | n :: nt, c :: ct => (decide (charLower n = charLower c)) && ciStarts nt ct

/-- Word boundary `\b` immediately before a word character, given the preceding
character of the scanned text (`none` at the start of the text). -/
def boundaryBefore : Option Char → Bool
  | none => true
  | some p => !isWordCh p

/-- Word boundary `\b` immediately after a word character, given the rest of the text. -/
def boundaryOk : List Char → Bool
  | [] => true
  | c :: _ => !isWordCh c

/-- Python date values (`datetime.date`); validity is enforced where the code
parses, so the structure itself is unconstrained. -/
structure PDate where
  year : Nat
  month : Nat
  day : Nat
deriving DecidableEq

/-- Gregorian leap-year rule used by Python `datetime.date`. -/
def leapYear (y : Nat) : Bool := y % 4 == 0 && (y % 100 != 0 || y % 400 == 0)

/-- Length of a month, as validated by the Python `date` constructor. -/
def daysInMonth (y m : Nat) : Nat :=
  if m = 2 then (if leapYear y then 29 else 28)
  else if m = 4 ∨ m = 6 ∨ m = 9 ∨ m = 11 then 30 else 31

/-- Validation performed by constructing a Python `date`: the parsing branches of
the source discard a candidate that raises here (`except: continue`). -/
def mkValidDate (y m d : Nat) : Option PDate :=
  if 1 ≤ y ∧ y ≤ 9999 ∧ 1 ≤ m ∧ m ≤ 12 ∧ 1 ≤ d ∧ d ≤ daysInMonth y m then
    some (PDate.mk y m d)
  else none

/-- Decimal digit character for a digit value below ten. -/
def dChar : Nat → Char
  | 0 => '0' | 1 => '1' | 2 => '2' | 3 => '3' | 4 => '4'
  | 5 => '5' | 6 => '6' | 7 => '7' | 8 => '8' | _ => '9'

/-- Numeric value of a decimal digit character. -/
def dVal (c : Char) : Nat := c.toNat - 48

/-- Python `date.isoformat()`: `"%04d-%02d-%02d"`; exact for the year range
1..9999 and month/day below 100 guaranteed for every validated date. -/
def PDate.isoformat (d : PDate) : String :=
  String.mk [dChar (d.year / 1000 % 10), dChar (d.year / 100 % 10),
    dChar (d.year / 10 % 10), dChar (d.year % 10), '-',
    dChar (d.month / 10 % 10), dChar (d.month % 10), '-',
    dChar (d.day / 10 % 10), dChar (d.day % 10)]

/-- Chronological strict order on dates (the order of Python `date` objects). -/
def PDate.lt (a b : PDate) : Bool :=
  decide (a.year < b.year ∨ (a.year = b.year ∧
    (a.month < b.month ∨ (a.month = b.month ∧ a.day < b.day))))

/-- Reads exactly `n` decimal digits, returning their value and the rest. -/
def readDigits : Nat → Nat → List Char → Option (Nat × List Char)
  | 0, acc, s => some (acc, s)
  | _ + 1, _, [] => none
  | n + 1, acc, c :: t => if isDigitCh c then readDigits n (10 * acc + dVal c) t else none

/-- Models `\s+` (greedy): at least one whitespace character, then all following. -/
def skipSpaces1 : List Char → Option (List Char)
  | [] => none
  | c :: t => if isSpaceCh c then some (t.dropWhile isSpaceCh) else none

/-- The month-name alternation of `DATE_PATTERNS[0]`, in the source order of
the `MONTHS` alternation (abbreviations first, `May` only once). -/
def monthNames : List (List Char × Nat) :=
  [(lit ("Jan"), 1), (lit ("Feb"), 2), (lit ("Mar"), 3), (lit ("Apr"), 4),
   (lit ("May"), 5), (lit ("Jun"), 6), (lit ("Jul"), 7), (lit ("Aug"), 8),
   (lit ("Sep"), 9), (lit ("Oct"), 10), (lit ("Nov"), 11), (lit ("Dec"), 12),
   (lit ("January"), 1), (lit ("February"), 2), (lit ("March"), 3), (lit ("April"), 4),
   (lit ("June"), 6), (lit ("July"), 7), (lit ("August"), 8), (lit ("September"), 9),
   (lit ("October"), 10), (lit ("November"), 11), (lit ("December"), 12)]

/-- Continuation of `DATE_PATTERNS[0]` after a month name: `\s+\d{4}\b`. -/
def afterMonth (s : List Char) : Option Nat :=
  match skipSpaces1 s with
  | none => none
  | some s2 =>
    match readDigits 4 0 s2 with
    | none => none
    | some (y, rest) => if boundaryOk rest then some y else none

/-- Ordered alternation over month names with its continuation: an alternative
is kept only if the rest of the pattern also matches (regex backtracking). -/
def tryMonths : List (List Char × Nat) → List Char → Option (Nat × Nat)
  | [], _ => none
  | (nm, mv) :: alts, s =>
    if ciStarts nm s then
      match afterMonth (s.drop nm.length) with
      | some y => some (mv, y)
      | none => tryMonths alts s
    else tryMonths alts s

/-- Continuation of `DATE_PATTERNS[0]` after the day digits: `\s+` then months. -/
def dayCont (dv : Nat) (rest : List Char) : Option (Nat × Nat × Nat) :=
  match skipSpaces1 rest with
  | none => none
  | some s2 =>
    match tryMonths monthNames s2 with
    | some (mv, y) => some (dv, mv, y)
    | none => none

/-- Match of `DATE_PATTERNS[0]` = `\b\d{1,2}\s+(?:MONTHS)\s+\d{4}\b` (re.I)
anchored at the current position; returns (day, month, year).  The greedy
`\d{1,2}` tries two digits first and backtracks to one. -/
def match1At (prev : Option Char) (s : List Char) : Option (Nat × Nat × Nat) :=
  if boundaryBefore prev then
    match readDigits 2 0 s with
    | some (dv, rest) =>
      (match dayCont dv rest with
       | some r => some r
       | none =>
         match readDigits 1 0 s with
         | some (dv1, rest1) => dayCont dv1 rest1
         | none => none)
    | none =>
      match readDigits 1 0 s with
      | some (dv1, rest1) => dayCont dv1 rest1
      | none => none
  else none

/-- `re.search` scan for `DATE_PATTERNS[0]`: leftmost matching position wins. -/
def search1 : Option Char → List Char → Option (Nat × Nat × Nat)
  | prev, s =>
    match match1At prev s with
    | some r => some r
    | none =>
      match s with
      | [] => none
      | c :: t => search1 (some c) t

/-- The separator class `[slash or dash]` of `DATE_PATTERNS[1]`. -/
def sepCh (c : Char) : Bool := c = '/' || c = '-'

/-- Tail `\d{2,4}\b` of `DATE_PATTERNS[1]` with one fixed digit count. -/
def yearTry (n : Nat) (s : List Char) : Option (Nat × Nat) :=
  match readDigits n 0 s with
  | some (y, rest) => if boundaryOk rest then some (y, n) else none
  | none => none

/-- Greedy `\d{2,4}\b`: four digits first, backtracking to three, then two. -/
def yearTail (s : List Char) : Option (Nat × Nat) :=
  (yearTry 4 s).orElse (fun _ => (yearTry 3 s).orElse (fun _ => yearTry 2 s))

/-- After the second number of `DATE_PATTERNS[1]`: `[slash or dash]\d{2,4}\b`. -/
def afterSecond (a b : Nat) (r : List Char) : Option (Nat × Nat × Nat × Nat) :=
  match r with
  | c :: t2 =>
    if sepCh c then
      match yearTail t2 with
      | some (y, n) => some (a, b, y, n)
      | none => none
    else none
  | [] => none

/-- One-digit fallback for the second `\d{1,2}` of `DATE_PATTERNS[1]`. -/
def oneDigitSecond (a : Nat) (t : List Char) : Option (Nat × Nat × Nat × Nat) :=
  match readDigits 1 0 t with
  | some (b, r) => afterSecond a b r
  | none => none

/-- Greedy second `\d{1,2}` of `DATE_PATTERNS[1]` with its continuation. -/
def secondNum (a : Nat) (t : List Char) : Option (Nat × Nat × Nat × Nat) :=
  match readDigits 2 0 t with
  | some (b, r) =>
    (match afterSecond a b r with
     | some res => some res
     | none => oneDigitSecond a t)
  | none => oneDigitSecond a t

/-- After the first number of `DATE_PATTERNS[1]`: `[slash or dash]` then the second number. -/
def afterFirst (a : Nat) (rest : List Char) : Option (Nat × Nat × Nat × Nat) :=
  match rest with
  | c :: t => if sepCh c then secondNum a t else none
  | [] => none

/-- One-digit fallback for the first `\d{1,2}` of `DATE_PATTERNS[1]`. -/
def oneDigitFirst (s : List Char) : Option (Nat × Nat × Nat × Nat) :=
  match readDigits 1 0 s with
  | some (a, rest) => afterFirst a rest
  | none => none

/-- Match of `DATE_PATTERNS[1]` = `\b\d{1,2}[slash or dash]\d{1,2}[slash or dash]\d{2,4}\b` anchored
at the current position; returns (first, second, year, year-digit-count). -/
def match2At (prev : Option Char) (s : List Char) : Option (Nat × Nat × Nat × Nat) :=
  if boundaryBefore prev then
    match readDigits 2 0 s with
    | some (a, rest) =>
      (match afterFirst a rest with
       | some res => some res
       | none => oneDigitFirst s)
    | none => oneDigitFirst s
  else none

/-- `re.search` scan for `DATE_PATTERNS[1]`. -/
def search2 : Option Char → List Char → Option (Nat × Nat × Nat × Nat)
  | prev, s =>
    match match2At prev s with
    | some r => some r
    | none =>
      match s with
      | [] => none
      | c :: t => search2 (some c) t

/-- Time tail of `DATE_PATTERNS[2]`: `T?\d{2}:?\d{2}:?\d{2}\b` (the exact lazy
counters `{2}?` of the source match exactly two digits).  The optional `T` and
`:` are consumed when present; when the following mandatory digits fail, the
skipped-optional alternative fails as well, so no further backtracking arises. -/
def timeTail (r5 : List Char) : Option (Nat × Nat × Nat) :=
  let r6 := match r5 with | 'T' :: t => t | _ => r5
  match readDigits 2 0 r6 with
  | none => none
  | some (hh, r7) =>
    let r8 := match r7 with | ':' :: t => t | _ => r7
    match readDigits 2 0 r8 with
    | none => none
    | some (mi, r9) =>
      let r10 := match r9 with | ':' :: t => t | _ => r9
      match readDigits 2 0 r10 with
      | none => none
      | some (ss, r11) => if boundaryOk r11 then some (hh, mi, ss) else none

/-- Match of `DATE_PATTERNS[2]` = `\b\d{4}-\d{2}-\d{2}T?\d{2}?:?\d{2}?:?\d{2}?\b`
anchored at the current position; returns (y, m, d, hh, mi, ss). -/
def match3At (prev : Option Char) (s : List Char) : Option (Nat × Nat × Nat × Nat × Nat × Nat) :=
  if boundaryBefore prev then
    match readDigits 4 0 s with
    | some (y, r1) =>
      (match r1 with
       | '-' :: r2 =>
         (match readDigits 2 0 r2 with
          | some (mo, r3) =>
            (match r3 with
             | '-' :: r4 =>
               (match readDigits 2 0 r4 with
                | some (dd, r5) =>
                  (match timeTail r5 with
                   | some (hh, mi, ss) => some (y, mo, dd, hh, mi, ss)
                   | none => none)
                | none => none)
             | _ => none)
          | none => none)
       | _ => none)
    | none => none
  else none

/-- `re.search` scan for `DATE_PATTERNS[2]`. -/
def search3 : Option Char → List Char → Option (Nat × Nat × Nat × Nat × Nat × Nat)
  | prev, s =>
    match match3At prev s with
    | some r => some r
    | none =>
      match s with
      | [] => none
      | c :: t => search3 (some c) t

/-- dateutil two-digit-year window, fixed at the reference year 2025 (dateutil
resolves a two-digit year to within fifty years of the current year; the
current year is frozen here since the embedding is pure). -/
def convertYear2 (y : Nat) : Nat :=
  let y2 := y + 2000
  if y2 ≥ 2075 then y2 - 100 else y2

/-- `dateparser.parse(m, dayfirst=True)` on a `DATE_PATTERNS[0]` match. -/
def p1date (line : List Char) : Option PDate :=
  (search1 none line).bind (fun r => mkValidDate r.2.2 r.2.1 r.1)

/-- `dateparser.parse(m, dayfirst=True)` on a `DATE_PATTERNS[1]` match:
day-first, with dateutil's swap when the second field cannot be a month. -/
def p2date (line : List Char) : Option PDate :=
  (search2 none line).bind (fun r =>
    let a := r.1
    let b := r.2.1
    let y := if r.2.2.2 = 2 then convertYear2 r.2.2.1 else r.2.2.1
    if b > 12 then mkValidDate y a b else mkValidDate y b a)

/-- `dateparser.parse(m, dayfirst=True)` on a `DATE_PATTERNS[2]` match: the
date fields with the time fields validated. -/
def p3date (line : List Char) : Option PDate :=
  (search3 none line).bind (fun r =>
    if r.2.2.2.1 ≤ 23 ∧ r.2.2.2.2.1 ≤ 59 ∧ r.2.2.2.2.2 ≤ 59 then
      mkValidDate r.1 r.2.1 r.2.2.1
    else none)

/-- `parse_any_date` of scraper.py: the patterns are tried in order; a pattern
whose leftmost match fails to parse falls through to the next pattern
(`except Exception: continue`), and `None` is returned when all fail. -/
def parse_any_date (line : List Char) : Option PDate :=
  (p1date line).orElse (fun _ => (p2date line).orElse (fun _ => p3date line))

/-- The three waste services of `HEADER_TO_SERVICE` (the keys of the
`collections` dict built by `extract_collections`). -/
inductive Service
  | refuse
  | recycling
  | garden
deriving DecidableEq

/-- Remainder of the text after the leftmost `\b`-delimited, case-insensitive
occurrence of `w`; `prev` is the character preceding the scanned suffix. -/
def findWordEnd : Option Char → List Char → List Char → Option (List Char)
  | prev, s, w =>
    if boundaryBefore prev && ciStarts w s && boundaryOk (s.drop w.length) then
      some (s.drop w.length)
    else
      match s with
      | [] => none
      | c :: t => findWordEnd (some c) t w

/-- Whole-word search (`\b w \b`, re.I) in a suffix preceded by `prev`. -/
def hasWordFrom (prev : Option Char) (s w : List Char) : Bool :=
  (findWordEnd prev s w).isSome

/-- Search for `\b w1 \b .* \b w2 \b` (re.I): a word occurrence of `w2`
starting at or after the end of an occurrence of `w1`.  `lastW1` is the final
character of `w1` (the character preceding the remainder that is scanned). -/
def wordThenWord (s w1 w2 : List Char) (lastW1 : Char) : Bool :=
  match findWordEnd none s w1 with
  | some rest => hasWordFrom (some lastW1) rest w2
  | none => false

/-- `classify_header` of scraper.py: the ordered `HEADER_TO_SERVICE` table. -/
def classify_header (line : List Char) : Option Service :=
  if wordThenWord line (lit ("green")) (lit ("recycling")) 'n' then some Service.recycling
  else if wordThenWord line (lit ("garden")) (lit ("waste")) 'n' then some Service.garden
  else if (match findWordEnd none line (lit ("brown")) with
           | some rest =>
             hasWordFrom (some 'n') rest (lit ("domestic")) ||
               hasWordFrom (some 'n') rest (lit ("refuse"))
           | none => false) then some Service.refuse
  else if hasWordFrom none line (lit ("domestic")) then some Service.refuse
  else if hasWordFrom none line (lit ("refuse")) then some Service.refuse
  else none

/-- Plain substring containment (Python `in` on strings). -/
def containsSub : List Char → List Char → Bool
  | hay, needle =>
    if needle.isPrefixOf hay then true
    else
      match hay with
      | [] => false
      | _ :: t => containsSub t needle

/-- ASCII lower-casing of a text (Python `str.lower` on the texts here). -/
def lowerChars (l : List Char) : List Char := l.map charLower

/-- The keyword guess of `extract_collections` pass 1, used when no heading has
been seen yet: substring tests on the lower-cased line, in source order. -/
def svcGuess (line : List Char) : Option Service :=
  let lower := lowerChars line
  if containsSub lower (lit ("recycling")) then some Service.recycling
  else if containsSub lower (lit ("garden")) then some Service.garden
  else if containsSub lower (lit ("domestic")) || containsSub lower (lit ("refuse")) then
    some Service.refuse
  else none

/-- The per-service accumulator of `extract_collections`
(`collections = {"refuse": [], "recycling": [], "garden": []}`). -/
structure Collections (α : Type) where
  refuse : α
  recycling : α
  garden : α
deriving DecidableEq

/-- Field selection by service key. -/
def Collections.get {α : Type} (c : Collections α) : Service → α
  | Service.refuse => c.refuse
  | Service.recycling => c.recycling
  | Service.garden => c.garden

/-- `collections[svc].append(d)`. -/
def Collections.app (c : Collections (List PDate)) (k : Service) (d : PDate) :
    Collections (List PDate) :=
  match k with
  | Service.refuse => Collections.mk (c.refuse ++ [d]) c.recycling c.garden
  | Service.recycling => Collections.mk c.refuse (c.recycling ++ [d]) c.garden
  | Service.garden => Collections.mk c.refuse c.recycling (c.garden ++ [d])

/-- Applies a function to every per-service field. -/
def Collections.fmap {α β : Type} (f : α → β) (c : Collections α) : Collections β :=
  Collections.mk (f c.refuse) (f c.recycling) (f c.garden)

/-- One line of pass 1 of `extract_collections`: a heading updates the cursor
and is consumed; otherwise a parsed date is appended to the cursor service,
falling back to the keyword guess, and is dropped when both are absent. -/
def pass1Step (st : Option Service × Collections (List PDate)) (line : List Char) :
    Option Service × Collections (List PDate) :=
  match classify_header line with
  | some s => (some s, st.2)
  | none =>
    match parse_any_date line with
    | some d =>
      (match (st.1).orElse (fun _ => svcGuess line) with
       | some k => (st.1, st.2.app k d)
       | none => st)
    | none => st

/-- Python `str.splitlines` on the newline conventions occurring here. -/
def splitLinesAux : List Char → List Char → List (List Char)
  | acc, [] => if acc = [] then [] else [acc.reverse]
  | acc, '\x0d' :: '\n' :: t => acc.reverse :: splitLinesAux [] t
  | acc, '\n' :: t => acc.reverse :: splitLinesAux [] t
  | acc, '\x0d' :: t => acc.reverse :: splitLinesAux [] t
  | acc, c :: t => splitLinesAux (c :: acc) t

/-- Python `str.strip`. -/
def stripChars (l : List Char) : List Char :=
  ((l.dropWhile isSpaceCh).reverse.dropWhile isSpaceCh).reverse

/-- `lines = [l.strip() for l in raw_text.splitlines() if l.strip()]`. -/
def cleanLines (raw : String) : List (List Char) :=
  ((splitLinesAux [] raw.data).map stripChars).filter (fun l => l ≠ [])

/-- Pass 1 of `extract_collections` over the cleaned lines. -/
def pass1 (lines : List (List Char)) : Option Service × Collections (List PDate) :=
  List.foldl pass1Step (none, Collections.mk [] [] []) lines

/-- Match of `iso_rx` = `\b(\d{4}-\d{2}-\d{2})T` anchored at the current
position; returns the date fields and the remainder after the match. -/
def matchIsoTAt (prev : Option Char) (s : List Char) : Option ((Nat × Nat × Nat) × List Char) :=
  if boundaryBefore prev then
    match readDigits 4 0 s with
    | some (y, r1) =>
      (match r1 with
       | '-' :: r2 =>
         (match readDigits 2 0 r2 with
          | some (mo, r3) =>
            (match r3 with
             | '-' :: r4 =>
               (match readDigits 2 0 r4 with
                | some (dd, r5) =>
                  (match r5 with
                   | 'T' :: r6 => some ((y, mo, dd), r6)
                   | _ => none)
                | none => none)
             | _ => none)
          | none => none)
       | _ => none)
    | none => none
  else none

/-- `iso_rx.finditer`: all non-overlapping matches, resuming after each match
(the character before the resume point is the matched `T`).  The fuel argument
is an upper bound on the scanned length; every step consumes at least one
character, so fuel `s.length + 1` is exact. -/
def isoScan : Nat → Option Char → List Char → List (Nat × Nat × Nat)
  | 0, _, _ => []
  | fuel + 1, prev, s =>
    match matchIsoTAt prev s with
    | some (r, rest) => r :: isoScan fuel (some 'T') rest
    | none =>
      match s with
      | [] => []
      | c :: t => isoScan fuel (some c) t

/-- Pass 2 of `extract_collections`: every `iso_rx` capture over every line,
kept when `datetime.fromisoformat` accepts it (`except: pass` otherwise). -/
def iso_candidates (raw : String) : List PDate :=
  ((cleanLines raw).map (fun l => (isoScan (l.length + 1) none l).filterMap
    (fun r => mkValidDate r.1 r.2.1 r.2.2))).flatten

/-- Insertion into a chronologically sorted duplicate-free list. -/
def insertSorted (x : PDate) : List PDate → List PDate
  | [] => [x]
  | h :: t =>
    if PDate.lt x h then x :: h :: t
    else if x = h then h :: t
    else h :: insertSorted x t

/-- `sorted(set(l))` on Python dates: sorted and duplicate-free. -/
def dedupSort (l : List PDate) : List PDate :=
  List.foldl (fun acc x => insertSorted x acc) [] l

/-- The naive alternating fallback of `extract_collections`: the sorted ISO
dates are appended alternately to recycling (even index) and refuse (odd). -/
def altFill : Nat → List PDate → Collections (List PDate) → Collections (List PDate)
  | _, [], c => c
  | i, d :: t, c =>
    altFill (i + 1) t (c.app (if i % 2 = 0 then Service.recycling else Service.refuse) d)

/-- `extract_collections` up to (and including) the fallback: pass 1, then the
alternating distribution of pass-2 ISO dates when pass 1 attributed nothing. -/
def withFallback (raw : String) : Collections (List PDate) :=
  if dedupSort (iso_candidates raw) ≠ [] ∧ (pass1 (cleanLines raw)).2.refuse = [] ∧
      (pass1 (cleanLines raw)).2.recycling = [] ∧ (pass1 (cleanLines raw)).2.garden = [] then
    altFill 0 (dedupSort (iso_candidates raw)) (pass1 (cleanLines raw)).2
  else (pass1 (cleanLines raw)).2

/-- The date-level result of `extract_collections`: each list deduplicated and
sorted (`sorted(set(collections[k]))`). -/
def extract_dates (raw : String) : Collections (List PDate) :=
  (withFallback raw).fmap dedupSort

/-- `extract_collections` of scraper.py: the final structure, each list
formatted with `date.isoformat`. -/
def extract_collections (raw : String) : Collections (List String) :=
  (extract_dates raw).fmap (fun l => l.map PDate.isoformat)

/-- Python `str.title` (used as the fallback for unknown service keys): the
first cased character of each run is upper-cased, the rest lower-cased. -/
def titleAux : Bool → List Char → List Char
  | _, [] => []
  | prev, c :: t =>
    (if c.isAlpha then (if prev then charLower c else charUpper c) else c) ::
      titleAux c.isAlpha t

/-- Python `str.title` on a string. -/
def str_title (s : String) : String := String.mk (titleAux false s.data)

/-- The `name_map` lookup of `build_ics` in scraper.py:
`name_map.get(svc, svc.title())`. -/
def service_title (svc : String) : String :=
  if svc = "refuse" then "Refuse (brown)"
  else if svc = "recycling" then "Recycling (green)"
  else if svc = "garden" then "Garden waste"
  else str_title svc

/-- One calendar event as constructed by `build_ics` (`ev.name`, `ev.begin`,
all-day); the fresh uid the ics library assigns to each `Event()` makes every
constructed event a distinct member of the `Calendar.events` set. -/
structure IcsEvent where
  name : String
  start : String
deriving DecidableEq

/-- The event built by the inner loop of `build_ics` for one service key and
one formatted date. -/
def eventFor (svc ds : String) : IcsEvent :=
  IcsEvent.mk (service_title svc ++ " bin collection") ds

/-- The events of one `for ds in dates` loop of `build_ics`. -/
def eventsFor (svc : String) (dates : List String) : List IcsEvent :=
  dates.map (eventFor svc)

/-- `build_ics` of scraper.py: one all-day event per (service, date) entry of
the collections dict, iterated in its insertion order refuse, recycling,
garden. -/
def build_ics (c : Collections (List String)) : List IcsEvent :=
  eventsFor ("refuse") c.refuse ++ eventsFor ("recycling") c.recycling ++
    eventsFor ("garden") c.garden

/-- The sqlite `results` table of cache.py: rows (key, ts, json payload); the
PRIMARY KEY makes at most one row per key observable. -/
abbrev CacheDB (α : Type) : Type := List (String × Int × α)

/-- `REPLACE INTO results(key, ts, json) VALUES (?, ?, ?)` with
`ts = int(time.time())` passed explicitly as `now`. -/
def set_cache {α : Type} (db : CacheDB α) (key : String) (data : α) (now : Int) :
    CacheDB α :=
  (key, now, data) :: db.filter (fun e => !(decide (e.1 = key)))

/-- `get_cache` of cache.py: the row for `key` if present, dropped when a ttl
is supplied and `now - ts > ttl_seconds`; `None` (a miss, not an error) when
no row exists. -/
def get_cache {α : Type} (db : CacheDB α) (key : String) (ttl_seconds : Option Int)
    (now : Int) : Option α :=
  match db.find? (fun e => decide (e.1 = key)) with
  | none => none
  | some e =>
    match ttl_seconds with
    | some ttl => if now - e.2.1 > ttl then none else some e.2.2
    | none => some e.2.2

/-- All (ts, payload) rows stored under a key. -/
def entriesFor {α : Type} (db : CacheDB α) (key : String) : List (Int × α) :=
  (db.filter (fun e => decide (e.1 = key))).map (fun e => e.2)

/-- Removal of every row of a key (no cache.py operation deletes rows; this is
only the shape of a store with no entry for the key). -/
def removeKey {α : Type} (db : CacheDB α) (key : String) : CacheDB α :=
  db.filter (fun e => !(decide (e.1 = key)))

/-- The service label map of notify.py `main` (the `.get(key, key.title())`
lookup building the reminder lines). -/
def notify_label (key : String) : String :=
  if key = "refuse" then "Refuse (brown bin)"
  else if key = "recycling" then "Recycling (green bin)"
  else if key = "garden" then "Garden waste"
  else str_title key

/-- Dash-separated groups of a character list (the shape accepted by
`datetime.strptime(s, "%Y-%m-%d")`). -/
def splitDash : List Char → List (List Char)
  | [] => [[]]
  | c :: t =>
    if c = '-' then [] :: splitDash t
    else
      match splitDash t with
      | g :: gs => (c :: g) :: gs
      | [] => [[c]]

/-- `datetime.strptime(s, "%Y-%m-%d").date()` of notify.py: four year digits,
one or two month digits (1..12), one or two day digits (1..31), the whole
string consumed, then `date` construction validates the day against the
month. -/
def parse_iso_ymd (s : String) : Option PDate :=
  match splitDash s.data with
  | [gy, gm, gd] =>
    if gy.length = 4 ∧ gy.all isDigitCh ∧
        1 ≤ gm.length ∧ gm.length ≤ 2 ∧ gm.all isDigitCh ∧
        1 ≤ gd.length ∧ gd.length ≤ 2 ∧ gd.all isDigitCh then
      mkValidDate (List.foldl (fun a c => 10 * a + dVal c) 0 gy)
        (List.foldl (fun a c => 10 * a + dVal c) 0 gm)
        (List.foldl (fun a c => 10 * a + dVal c) 0 gd)
    else none
  | _ => none

/-- `today + timedelta(days=1)` of notify.py. -/
def next_day (d : PDate) : PDate :=
  if d.day < daysInMonth d.year d.month then PDate.mk d.year d.month (d.day + 1)
  else if d.month < 12 then PDate.mk d.year (d.month + 1) 1
  else PDate.mk (d.year + 1) 1 1

/-- The gathering loop of notify.py `main`: for every (key, arr) item and every
date string of arr, a string that parses to tomorrow appends the service
label (unparseable strings are skipped by the `except ValueError` branch). -/
def due_services (collections : List (String × List String)) (tomorrow : PDate) :
    List String :=
  (collections.map (fun p =>
    (p.2.filter (fun s => decide (parse_iso_ymd s = some tomorrow))).map
      (fun _ => notify_label p.1))).flatten

/-- `%B` month names of `strftime`. -/
def month_name : Nat → String
  | 1 => "January" | 2 => "February" | 3 => "March" | 4 => "April"
  | 5 => "May" | 6 => "June" | 7 => "July" | 8 => "August"
  | 9 => "September" | 10 => "October" | 11 => "November" | 12 => "December"
  | _ => ""

/-- `%A` weekday names via Zeller's congruence (0 = Saturday). -/
def weekday_name (d : PDate) : String :=
  let ym := if d.month ≤ 2 then (d.year - 1, d.month + 12) else (d.year, d.month)
  let h := (d.day + 13 * (ym.2 + 1) / 5 + ym.1 % 100 + ym.1 % 100 / 4 +
    ym.1 / 100 / 4 + 5 * (ym.1 / 100)) % 7
  match h with
  | 0 => "Saturday" | 1 => "Sunday" | 2 => "Monday" | 3 => "Tuesday"
  | 4 => "Wednesday" | 5 => "Thursday" | _ => "Friday"

/-- Two-digit zero-padded day (`%d`). -/
def pad2day (n : Nat) : String := String.mk [dChar (n / 10 % 10), dChar (n % 10)]

/-- `tomorrow.strftime("%A %d %B")` of notify.py. -/
def nice_date (d : PDate) : String :=
  weekday_name d ++ " " ++ pad2day d.day ++ " " ++ month_name d.month

/-- The reminder body composed by notify.py `main`: header line, tomorrow
line, and one bulleted line per due service. -/
def reminder_message (postcode hint : String) (tomorrow : PDate)
    (services : List String) : String :=
  String.intercalate ("\n")
    ((("Bin reminder for " ++ postcode ++ " — " ++ hint) ::
      ("Tomorrow (" ++ nice_date tomorrow ++ "):") ::
      services.map (fun s => "• " ++ s)))

/-- The decision path of notify.py `main` with `FORCE_SEND` off: no due
service sends nothing (`return` before `send_whatsapp`); otherwise the
composed reminder body is sent. -/
def notify_decision (collections : List (String × List String)) (postcode hint : String)
    (today : PDate) : Option String :=
  if due_services collections (next_day today) = [] then none
  else some (reminder_message postcode hint (next_day today)
    (due_services collections (next_day today)))

/-- `normalise_postcode` of scraper.py. -/
def normalise_postcode (pc : String) : String :=
  let u := ((stripChars pc.data).map charUpper).filter (fun c => !(decide (c = ' ')))
  if u.length > 3 then
    String.mk (u.take (u.length - 3) ++ [' '] ++ u.drop (u.length - 3))
  else String.mk u

/-- The record assembled by `scrape` in scraper.py (`data = {...}`). -/
structure ScheduleRecord where
  postcode : String
  address_hint : String
  collections : Collections (List String)
  scraped_at : String
deriving DecidableEq

/-- The post-fetch pipeline of `scrape`: the raw text is parsed and the record
is assembled and returned unconditionally — the function has no failure
outcome and carries no marker distinguishing an all-empty extraction. -/
def scrape_record (postcode address_hint raw scraped_at : String) : ScheduleRecord :=
  ScheduleRecord.mk (normalise_postcode postcode) address_hint
    (extract_collections raw) scraped_at

/-- Cursor effect of one pass-1 line: a heading overwrites the cursor, any
other line leaves it. -/
def cursorStep (c : Option Service) (l : List Char) : Option Service :=
  match classify_header l with
  | some s => some s
  | none => c

/-- Cursor after a list of lines. -/
def cursorAfter (c : Option Service) (lines : List (List Char)) : Option Service :=
  List.foldl cursorStep c lines

/-- Total number of dates held across the three accumulator lists. -/
def colTotal (c : Collections (List PDate)) : Nat :=
  c.refuse.length + c.recycling.length + c.garden.length

/-- A date string is canonical when reparsing it under `%Y-%m-%d` and
reformatting reproduces it (every ISO-8601 `YYYY-MM-DD` string is). -/
def canonicalStr (s : String) : Bool :=
  match parse_iso_ymd s with
  | some dd => decide (PDate.isoformat dd = s)
  | none => true

/-- The invariant of every Python `date` object. -/
def ValidDate (d : PDate) : Prop :=
  1 ≤ d.year ∧ d.year ≤ 9999 ∧ 1 ≤ d.month ∧ d.month ≤ 12 ∧
    1 ≤ d.day ∧ d.day ≤ daysInMonth d.year d.month

theorem pdate_lt_iff (a b : PDate) : PDate.lt a b = true ↔
    (a.year < b.year ∨ (a.year = b.year ∧
      (a.month < b.month ∨ (a.month = b.month ∧ a.day < b.day)))) := by
  simp [PDate.lt]

theorem pdate_eq_iff (a b : PDate) : a = b ↔
    (a.year = b.year ∧ a.month = b.month ∧ a.day = b.day) := by
  cases a
  cases b
  simp

theorem pdate_lt_trans (a b c : PDate) (h1 : PDate.lt a b = true)
    (h2 : PDate.lt b c = true) : PDate.lt a c = true := by
  rw [pdate_lt_iff] at h1 h2 ⊢
  omega

theorem pdate_lt_ne (a b : PDate) (h : PDate.lt a b = true) : a ≠ b := by
  rw [pdate_lt_iff] at h
  rw [Ne, pdate_eq_iff]
  omega

theorem pdate_lt_of_not (a b : PDate) (h1 : ¬ PDate.lt a b = true) (h2 : ¬ a = b) :
    PDate.lt b a = true := by
  rw [pdate_lt_iff] at h1 ⊢
  rw [pdate_eq_iff] at h2
  omega

theorem pdate_lt_irrefl (a : PDate) : PDate.lt a a = false := by
  rw [show (false : Bool) = decide False by simp, PDate.lt]
  simp

theorem insertSorted_cons_lt (d h : PDate) (t : List PDate) (h1 : PDate.lt d h = true) :
    insertSorted d (h :: t) = d :: h :: t := by
  simp [insertSorted, h1]

theorem insertSorted_cons_eq (d h : PDate) (t : List PDate)
    (_h1 : ¬ PDate.lt d h = true) (h2 : d = h) : insertSorted d (h :: t) = h :: t := by
  simp [insertSorted, h2, pdate_lt_irrefl]

theorem insertSorted_cons_gt (d h : PDate) (t : List PDate)
    (h1 : ¬ PDate.lt d h = true) (h2 : ¬ d = h) :
    insertSorted d (h :: t) = h :: insertSorted d t := by
  simp [insertSorted, h1, h2]

theorem mem_insertSorted (x d : PDate) (l : List PDate) :
    x ∈ insertSorted d l ↔ x = d ∨ x ∈ l := by
  induction l with
  | nil => simp [insertSorted]
  | cons h t ih =>
    by_cases h1 : PDate.lt d h = true
    · rw [insertSorted_cons_lt d h t h1]
      simp only [List.mem_cons]
    · by_cases h2 : d = h
      · rw [insertSorted_cons_eq d h t h1 h2]
        simp only [List.mem_cons]
        subst h2
        tauto
      · rw [insertSorted_cons_gt d h t h1 h2]
        simp only [List.mem_cons, ih]
        tauto

theorem pairwise_insertSorted (d : PDate) (l : List PDate)
    (hl : l.Pairwise (fun a b => PDate.lt a b = true)) :
    (insertSorted d l).Pairwise (fun a b => PDate.lt a b = true) := by
  induction l with
  | nil => simp [insertSorted]
  | cons h t ih =>
    rw [List.pairwise_cons] at hl
    by_cases h1 : PDate.lt d h = true
    · rw [insertSorted_cons_lt d h t h1, List.pairwise_cons]
      refine ⟨?_, by rw [List.pairwise_cons]; exact hl⟩
      intro x hx
      rcases List.mem_cons.mp hx with rfl | hx
      · exact h1
      · exact pdate_lt_trans _ _ _ h1 (hl.1 x hx)
    · by_cases h2 : d = h
      · rw [insertSorted_cons_eq d h t h1 h2, List.pairwise_cons]
        exact hl
      · rw [insertSorted_cons_gt d h t h1 h2, List.pairwise_cons]
        refine ⟨?_, ih hl.2⟩
        intro x hx
        rcases (mem_insertSorted x d t).mp hx with rfl | hx
        · exact pdate_lt_of_not _ _ h1 h2
        · exact hl.1 x hx

theorem pairwise_dedupSort_aux (l : List PDate) (acc : List PDate)
    (hacc : acc.Pairwise (fun a b => PDate.lt a b = true)) :
    (List.foldl (fun acc x => insertSorted x acc) acc l).Pairwise
      (fun a b => PDate.lt a b = true) := by
  induction l generalizing acc with
  | nil => exact hacc
  | cons h t ih => exact ih _ (pairwise_insertSorted h acc hacc)

theorem pairwise_dedupSort (l : List PDate) :
    (dedupSort l).Pairwise (fun a b => PDate.lt a b = true) :=
  pairwise_dedupSort_aux l [] (by simp)

theorem nodup_of_pairwise_lt (l : List PDate)
    (h : l.Pairwise (fun a b => PDate.lt a b = true)) : l.Nodup :=
  h.imp (fun hab => pdate_lt_ne _ _ hab)

theorem mem_dedupSort_aux (x : PDate) (l acc : List PDate) :
    x ∈ List.foldl (fun acc x => insertSorted x acc) acc l ↔ x ∈ acc ∨ x ∈ l := by
  induction l generalizing acc with
  | nil => simp
  | cons h t ih =>
    simp only [List.foldl_cons, ih, mem_insertSorted, List.mem_cons]
    tauto

theorem mem_dedupSort (x : PDate) (l : List PDate) : x ∈ dedupSort l ↔ x ∈ l := by
  rw [dedupSort, mem_dedupSort_aux]
  simp

theorem collections_get_app (c : Collections (List PDate)) (k k2 : Service) (d : PDate) :
    (c.app k d).get k2 = if k2 = k then c.get k2 ++ [d] else c.get k2 := by
  cases k <;> cases k2 <;> simp [Collections.app, Collections.get]

theorem collections_get_fmap {α β : Type} (f : α → β) (c : Collections α) (k : Service) :
    (c.fmap f).get k = f (c.get k) := by
  cases k <;> rfl

theorem pass1Step_fst (st : Option Service × Collections (List PDate)) (l : List Char) :
    (pass1Step st l).1 = cursorStep st.1 l := by
  unfold pass1Step cursorStep
  cases classify_header l
  · cases parse_any_date l
    · rfl
    · cases (st.1).orElse (fun _ => svcGuess l) <;> rfl
  · rfl

theorem pass1_fst (lines : List (List Char)) (st : Option Service × Collections (List PDate)) :
    (List.foldl pass1Step st lines).1 = cursorAfter st.1 lines := by
  induction lines generalizing st with
  | nil => rfl
  | cons l ls ih =>
    rw [List.foldl_cons, ih, pass1Step_fst]
    rfl

theorem mem_pass1_attrib (lines : List (List Char))
    (st : Option Service × Collections (List PDate)) (k : Service) (d : PDate)
    (h : d ∈ ((List.foldl pass1Step st lines).2.get k)) :
    d ∈ (st.2.get k) ∨ ∃ pre line post, lines = pre ++ line :: post ∧
      classify_header line = none ∧ parse_any_date line = some d ∧
      ((cursorAfter st.1 pre).orElse (fun _ => svcGuess line)) = some k := by
  induction lines generalizing st with
  | nil => exact Or.inl h
  | cons l ls ih =>
    rw [List.foldl_cons] at h
    rcases ih (pass1Step st l) h with hbase | ⟨pre, line, post, heq, hcl, hpd, hattr⟩
    · unfold pass1Step at hbase
      rcases hc : classify_header l with _ | s
      · rw [hc] at hbase
        rcases hp : parse_any_date l with _ | d0
        · rw [hp] at hbase
          exact Or.inl hbase
        · rw [hp] at hbase
          rcases hr : (st.1).orElse (fun _ => svcGuess l) with _ | k0
          · rw [hr] at hbase
            exact Or.inl hbase
          · rw [hr] at hbase
            simp only [collections_get_app] at hbase
            by_cases hk : k = k0
            · rw [if_pos hk] at hbase
              rcases List.mem_append.mp hbase with hold | hnew
              · exact Or.inl hold
              · refine Or.inr ⟨[], l, ls, rfl, hc, ?_, ?_⟩
                · rwa [List.mem_singleton.mp hnew]
                · rw [show cursorAfter st.1 [] = st.1 from rfl, hr, hk]
            · rw [if_neg hk] at hbase
              exact Or.inl hbase
      · rw [hc] at hbase
        exact Or.inl hbase
    · refine Or.inr ⟨l :: pre, line, post, by rw [heq]; rfl, hcl, hpd, ?_⟩
      rw [show cursorAfter st.1 (l :: pre) = cursorAfter (cursorStep st.1 l) pre from rfl,
        ← pass1Step_fst st l]
      exact hattr

theorem mkValidDate_valid (y m d : Nat) (dd : PDate) (h : mkValidDate y m d = some dd) :
    ValidDate dd := by
  unfold mkValidDate at h
  split at h
  · next hc =>
    rw [Option.some.injEq] at h
    subst h
    exact hc
  · exact absurd h (by simp)

theorem p1date_valid (l : List Char) (d : PDate) (h : p1date l = some d) : ValidDate d := by
  unfold p1date at h
  rcases hs : search1 none l with _ | r
  · rw [hs] at h
    exact absurd h (by simp)
  · rw [hs, Option.some_bind] at h
    exact mkValidDate_valid _ _ _ _ h

theorem p2date_valid (l : List Char) (d : PDate) (h : p2date l = some d) : ValidDate d := by
  unfold p2date at h
  rcases hs : search2 none l with _ | r
  · rw [hs] at h
    exact absurd h (by simp)
  · rw [hs, Option.some_bind] at h
    dsimp only at h
    split at h <;> split at h <;> exact mkValidDate_valid _ _ _ _ h

theorem p3date_valid (l : List Char) (d : PDate) (h : p3date l = some d) : ValidDate d := by
  unfold p3date at h
  rcases hs : search3 none l with _ | r
  · rw [hs] at h
    exact absurd h (by simp)
  · rw [hs, Option.some_bind] at h
    split at h
    · exact mkValidDate_valid _ _ _ _ h
    · exact absurd h (by simp)

theorem parse_any_date_valid (l : List Char) (d : PDate) (h : parse_any_date l = some d) :
    ValidDate d := by
  unfold parse_any_date at h
  rcases h1 : p1date l with _ | d1
  · rw [h1] at h
    simp only [Option.orElse] at h
    rcases h2 : p2date l with _ | d2
    · rw [h2] at h
      simp only [Option.orElse] at h
      exact p3date_valid _ _ h
    · rw [h2] at h
      simp only [Option.orElse, Option.some.injEq] at h
      subst h
      exact p2date_valid _ _ h2
  · rw [h1] at h
    simp only [Option.orElse, Option.some.injEq] at h
    subst h
    exact p1date_valid _ _ h1

theorem iso_candidates_valid (raw : String) (d : PDate) (h : d ∈ iso_candidates raw) :
    ValidDate d := by
  unfold iso_candidates at h
  rw [List.mem_flatten] at h
  rcases h with ⟨l, hl, hd⟩
  rw [List.mem_map] at hl
  rcases hl with ⟨line, _, rfl⟩
  rw [List.mem_filterMap] at hd
  rcases hd with ⟨r, _, hr⟩
  exact mkValidDate_valid _ _ _ _ hr

theorem collections_mem_app (c : Collections (List PDate)) (k0 k : Service) (d x : PDate)
    (h : x ∈ (c.app k0 d).get k) : x ∈ c.get k ∨ x = d := by
  rw [collections_get_app] at h
  split at h
  · rcases List.mem_append.mp h with h1 | h2
    · exact Or.inl h1
    · exact Or.inr (List.mem_singleton.mp h2)
  · exact Or.inl h

theorem altFill_mem (i : Nat) (l : List PDate) (c : Collections (List PDate)) (k : Service)
    (x : PDate) (h : x ∈ (altFill i l c).get k) : x ∈ c.get k ∨ x ∈ l := by
  induction l generalizing i c with
  | nil => exact Or.inl h
  | cons d t ih =>
    rcases ih (i + 1) _ h with hc | ht
    · rcases collections_mem_app _ _ _ _ _ hc with h1 | h2
      · exact Or.inl h1
      · rw [h2]
        exact Or.inr (List.mem_cons_self d t)
    · exact Or.inr (List.mem_cons_of_mem d ht)

theorem mem_pass1_parse (lines : List (List Char)) (k : Service) (d : PDate)
    (h : d ∈ ((pass1 lines).2.get k)) :
    ∃ line ∈ lines, parse_any_date line = some d := by
  rcases mem_pass1_attrib lines (none, Collections.mk [] [] []) k d h with hbase | hattr
  · cases k <;> exact absurd hbase (by simp [Collections.get])
  · rcases hattr with ⟨pre, line, post, heq, _, hpd, _⟩
    exact ⟨line, by rw [heq]; simp, hpd⟩

theorem extract_dates_valid (raw : String) (k : Service) (d : PDate)
    (h : d ∈ (extract_dates raw).get k) : ValidDate d := by
  unfold extract_dates at h
  rw [collections_get_fmap, mem_dedupSort] at h
  unfold withFallback at h
  split at h
  · rcases altFill_mem _ _ _ _ _ h with hp | hiso
    · rcases mem_pass1_parse _ _ _ hp with ⟨line, _, hpd⟩
      exact parse_any_date_valid _ _ hpd
    · rw [mem_dedupSort] at hiso
      exact iso_candidates_valid _ _ hiso
  · rcases mem_pass1_parse _ _ _ h with ⟨line, _, hpd⟩
    exact parse_any_date_valid _ _ hpd

theorem dVal_dChar (k : Nat) (h : k < 10) : dVal (dChar k) = k := by
  interval_cases k <;> rfl

theorem dChar_isDigit (k : Nat) : isDigitCh (dChar k) = true := by
  unfold dChar
  split <;> rfl

theorem isoformat_inj (a b : PDate) (ha : ValidDate a) (hb : ValidDate b)
    (h : PDate.isoformat a = PDate.isoformat b) : a = b := by
  unfold PDate.isoformat at h
  have h2 := congrArg String.data h
  simp only [List.cons.injEq, and_true] at h2
  obtain ⟨e1, e2, e3, e4, _, e5, e6, _, e7, e8⟩ := h2
  have d1 := congrArg dVal e1
  have d2 := congrArg dVal e2
  have d3 := congrArg dVal e3
  have d4 := congrArg dVal e4
  have d5 := congrArg dVal e5
  have d6 := congrArg dVal e6
  have d7 := congrArg dVal e7
  have d8 := congrArg dVal e8
  rw [dVal_dChar _ (Nat.mod_lt _ (by norm_num)),
    dVal_dChar _ (Nat.mod_lt _ (by norm_num))] at d1 d2 d3 d4 d5 d6 d7 d8
  rcases ha with ⟨hay1, hay2, ham1, ham2, had1, had2⟩
  rcases hb with ⟨hby1, hby2, hbm1, hbm2, hbd1, hbd2⟩
  have hal : a.day ≤ 31 := le_trans had2 (by unfold daysInMonth; split <;> [split; split] <;> omega)
  have hbl : b.day ≤ 31 := le_trans hbd2 (by unfold daysInMonth; split <;> [split; split] <;> omega)
  rw [pdate_eq_iff]
  omega

theorem daysInMonth_pos (y m : Nat) : 1 ≤ daysInMonth y m := by
  unfold daysInMonth
  split <;> [split; split] <;> omega

theorem next_day_valid (d : PDate) (h : ValidDate d) (hy : d.year ≤ 9998) :
    ValidDate (next_day d) := by
  rcases h with ⟨h1, h2, h3, h4, h5, h6⟩
  unfold next_day
  split
  · next hlt =>
    exact ⟨h1, h2, h3, h4, by show 1 ≤ d.day + 1; omega,
      by show d.day + 1 ≤ daysInMonth d.year d.month; omega⟩
  · split
    · next h7 h8 =>
      exact ⟨h1, h2, by show 1 ≤ d.month + 1; omega, by show d.month + 1 ≤ 12; omega,
        le_refl 1, daysInMonth_pos _ _⟩
    · next h7 h8 =>
      exact ⟨by show 1 ≤ d.year + 1; omega, by show d.year + 1 ≤ 9999; omega,
        le_refl 1, by show (1 : Nat) ≤ 12; omega, le_refl 1, daysInMonth_pos _ _⟩

theorem dChar_ne_dash (k : Nat) : dChar k ≠ '-' := by
  unfold dChar
  split <;> decide

theorem splitDash_dash (t : List Char) : splitDash ('-' :: t) = [] :: splitDash t := by
  simp [splitDash]

theorem splitDash_cons_head (c : Char) (t g : List Char) (gs : List (List Char))
    (h : c ≠ '-') (ht : splitDash t = g :: gs) : splitDash (c :: t) = (c :: g) :: gs := by
  simp [splitDash, h, ht]

theorem parse_iso_ymd_isoformat (d : PDate) (h : ValidDate d) :
    parse_iso_ymd (PDate.isoformat d) = some d := by
  obtain ⟨y, m, dy⟩ := d
  unfold ValidDate at h
  dsimp only at h
  rcases h with ⟨h1, h2, h3, h4, h5, h6⟩
  have s1 : splitDash [dChar (dy % 10)] = [[dChar (dy % 10)]] :=
    splitDash_cons_head _ _ _ _ (dChar_ne_dash _) rfl
  have s2 : splitDash [dChar (dy / 10 % 10), dChar (dy % 10)] =
      [[dChar (dy / 10 % 10), dChar (dy % 10)]] :=
    splitDash_cons_head _ _ _ _ (dChar_ne_dash _) s1
  have s3 := splitDash_dash [dChar (dy / 10 % 10), dChar (dy % 10)]
  rw [s2] at s3
  have s4 : splitDash [dChar (m % 10), '-', dChar (dy / 10 % 10), dChar (dy % 10)] =
      [[dChar (m % 10)], [dChar (dy / 10 % 10), dChar (dy % 10)]] :=
    splitDash_cons_head _ _ _ _ (dChar_ne_dash _) s3
  have s5 : splitDash [dChar (m / 10 % 10), dChar (m % 10), '-',
      dChar (dy / 10 % 10), dChar (dy % 10)] =
      [[dChar (m / 10 % 10), dChar (m % 10)], [dChar (dy / 10 % 10), dChar (dy % 10)]] :=
    splitDash_cons_head _ _ _ _ (dChar_ne_dash _) s4
  have s6 := splitDash_dash [dChar (m / 10 % 10), dChar (m % 10), '-',
      dChar (dy / 10 % 10), dChar (dy % 10)]
  rw [s5] at s6
  have s7 : splitDash (dChar (y % 10) :: '-' :: dChar (m / 10 % 10) :: dChar (m % 10) :: '-' ::
      dChar (dy / 10 % 10) :: [dChar (dy % 10)]) =
      [[dChar (y % 10)], [dChar (m / 10 % 10), dChar (m % 10)],
       [dChar (dy / 10 % 10), dChar (dy % 10)]] :=
    splitDash_cons_head _ _ _ _ (dChar_ne_dash _) s6
  have s8 : splitDash (dChar (y / 10 % 10) :: dChar (y % 10) :: '-' :: dChar (m / 10 % 10) ::
      dChar (m % 10) :: '-' :: dChar (dy / 10 % 10) :: [dChar (dy % 10)]) =
      [[dChar (y / 10 % 10), dChar (y % 10)], [dChar (m / 10 % 10), dChar (m % 10)],
       [dChar (dy / 10 % 10), dChar (dy % 10)]] :=
    splitDash_cons_head _ _ _ _ (dChar_ne_dash _) s7
  have s9 : splitDash (dChar (y / 100 % 10) :: dChar (y / 10 % 10) :: dChar (y % 10) :: '-' ::
      dChar (m / 10 % 10) :: dChar (m % 10) :: '-' :: dChar (dy / 10 % 10) ::
      [dChar (dy % 10)]) =
      [[dChar (y / 100 % 10), dChar (y / 10 % 10), dChar (y % 10)],
       [dChar (m / 10 % 10), dChar (m % 10)], [dChar (dy / 10 % 10), dChar (dy % 10)]] :=
    splitDash_cons_head _ _ _ _ (dChar_ne_dash _) s8
  have s10 : splitDash (dChar (y / 1000 % 10) :: dChar (y / 100 % 10) :: dChar (y / 10 % 10) ::
      dChar (y % 10) :: '-' :: dChar (m / 10 % 10) :: dChar (m % 10) :: '-' ::
      dChar (dy / 10 % 10) :: [dChar (dy % 10)]) =
      [[dChar (y / 1000 % 10), dChar (y / 100 % 10), dChar (y / 10 % 10), dChar (y % 10)],
       [dChar (m / 10 % 10), dChar (m % 10)], [dChar (dy / 10 % 10), dChar (dy % 10)]] :=
    splitDash_cons_head _ _ _ _ (dChar_ne_dash _) s9
  unfold parse_iso_ymd
  rw [show (PDate.isoformat (PDate.mk y m dy)).data =
    dChar (y / 1000 % 10) :: dChar (y / 100 % 10) :: dChar (y / 10 % 10) ::
      dChar (y % 10) :: '-' :: dChar (m / 10 % 10) :: dChar (m % 10) :: '-' ::
      dChar (dy / 10 % 10) :: [dChar (dy % 10)] from rfl, s10]
  dsimp only
  rw [if_pos]
  · simp only [List.foldl_cons, List.foldl_nil]
    rw [dVal_dChar _ (Nat.mod_lt _ (by norm_num)), dVal_dChar _ (Nat.mod_lt _ (by norm_num)),
      dVal_dChar _ (Nat.mod_lt _ (by norm_num)), dVal_dChar _ (Nat.mod_lt _ (by norm_num)),
      dVal_dChar _ (Nat.mod_lt _ (by norm_num)), dVal_dChar _ (Nat.mod_lt _ (by norm_num)),
      dVal_dChar _ (Nat.mod_lt _ (by norm_num)), dVal_dChar _ (Nat.mod_lt _ (by norm_num))]
    rw [show 10 * (10 * (10 * (10 * 0 + y / 1000 % 10) + y / 100 % 10) + y / 10 % 10) + y % 10 = y
        from by omega,
      show 10 * (10 * 0 + m / 10 % 10) + m % 10 = m from by omega,
      show 10 * (10 * 0 + dy / 10 % 10) + dy % 10 = dy from by
        have hdy : dy ≤ 31 := le_trans h6 (by unfold daysInMonth; split <;> [split; split] <;> omega)
        omega]
    unfold mkValidDate
    rw [if_pos ⟨h1, h2, h3, h4, h5, h6⟩]
  · simp [dChar_isDigit]

theorem canonical_parse_iff (s : String) (T : PDate) (hv : ValidDate T)
    (hc : canonicalStr s = true) : parse_iso_ymd s = some T ↔ s = PDate.isoformat T := by
  constructor
  · intro hp
    unfold canonicalStr at hc
    rw [hp] at hc
    simp only [decide_eq_true_eq] at hc
    exact hc.symm
  · intro hs
    rw [hs]
    exact parse_iso_ymd_isoformat T hv

theorem mem_due_services (cols : List (String × List String)) (T : PDate) (lab : String)
    (hv : ValidDate T) (hwf : ∀ p ∈ cols, ∀ s ∈ p.2, canonicalStr s = true) :
    lab ∈ due_services cols T ↔
      ∃ p ∈ cols, PDate.isoformat T ∈ p.2 ∧ lab = notify_label p.1 := by
  unfold due_services
  rw [List.mem_flatten]
  constructor
  · rintro ⟨l, hl, hlab⟩
    rw [List.mem_map] at hl
    rcases hl with ⟨p, hp, rfl⟩
    rw [List.mem_map] at hlab
    rcases hlab with ⟨s, hs, rfl⟩
    rw [List.mem_filter] at hs
    rcases hs with ⟨hsmem, hpred⟩
    have hss := (canonical_parse_iff s T hv (hwf p hp s hsmem)).mp (of_decide_eq_true hpred)
    exact ⟨p, hp, by rw [← hss]; exact hsmem, rfl⟩
  · rintro ⟨p, hp, hmem, rfl⟩
    refine ⟨(p.2.filter (fun s => decide (parse_iso_ymd s = some T))).map
      (fun _ => notify_label p.1), List.mem_map.mpr ⟨p, hp, rfl⟩, ?_⟩
    rw [List.mem_map]
    refine ⟨PDate.isoformat T, ?_, rfl⟩
    rw [List.mem_filter]
    exact ⟨hmem, decide_eq_true ((canonical_parse_iff _ T hv (hwf p hp _ hmem)).mpr rfl)⟩

theorem removeKey_no_match {α : Type} (db : CacheDB α) (key : String) :
    ∀ e ∈ removeKey db key, ¬ (decide (e.1 = key) = true) := by
  intro e he
  unfold removeKey at he
  rcases List.mem_filter.mp he with ⟨_, hne⟩
  simp only [Bool.not_eq_true'] at hne
  simp [hne]

theorem mem_eventsFor (svc : String) (dates : List String) (e : IcsEvent) :
    e ∈ eventsFor svc dates ↔ ∃ ds ∈ dates, e = eventFor svc ds := by
  unfold eventsFor
  rw [List.mem_map]
  constructor
  · rintro ⟨ds, hds, rfl⟩
    exact ⟨ds, hds, rfl⟩
  · rintro ⟨ds, hds, rfl⟩
    exact ⟨ds, hds, rfl⟩

theorem eventFor_injective (svc : String) : Function.Injective (eventFor svc) := by
  intro a b hab
  unfold eventFor at hab
  rw [IcsEvent.mk.injEq] at hab
  exact hab.2

theorem name_of_mem_eventsFor (svc : String) (dates : List String) (e : IcsEvent)
    (h : e ∈ eventsFor svc dates) : e.name = service_title svc ++ " bin collection" := by
  rcases (mem_eventsFor svc dates e).mp h with ⟨ds, _, rfl⟩
  rfl

theorem nodup_eventsFor (svc : String) (dates : List String) (h : dates.Nodup) :
    (eventsFor svc dates).Nodup :=
  h.map (eventFor_injective svc)

theorem eventsFor_disjoint (s1 s2 : String) (d1 d2 : List String)
    (hne : service_title s1 ++ " bin collection" ≠ service_title s2 ++ " bin collection") :
    List.Disjoint (eventsFor s1 d1) (eventsFor s2 d2) := by
  intro e he1 he2
  exact hne (by rw [← name_of_mem_eventsFor s1 d1 e he1, name_of_mem_eventsFor s2 d2 e he2])

theorem dChar_lt_dChar (x y : Nat) (hx : x < 10) (hy : y < 10) (hxy : x < y) :
    dChar x < dChar y := by
  interval_cases x <;> interval_cases y <;> decide

theorem isoformat_lex (a b : PDate) (ha : ValidDate a) (hb : ValidDate b)
    (h : PDate.lt a b = true) : PDate.isoformat a < PDate.isoformat b := by
  rcases ha with ⟨ha1, ha2, ha3, ha4, ha5, ha6⟩
  rcases hb with ⟨hb1, hb2, hb3, hb4, hb5, hb6⟩
  have had : a.day ≤ 31 :=
    le_trans ha6 (by unfold daysInMonth; split <;> [split; split] <;> omega)
  have hbd : b.day ≤ 31 :=
    le_trans hb6 (by unfold daysInMonth; split <;> [split; split] <;> omega)
  rw [String.lt_iff_toList_lt]
  rw [pdate_lt_iff] at h
  show List.Lex (fun c1 c2 => c1 < c2)
    (dChar (a.year / 1000 % 10) :: dChar (a.year / 100 % 10) :: dChar (a.year / 10 % 10) ::
      dChar (a.year % 10) :: '-' :: dChar (a.month / 10 % 10) :: dChar (a.month % 10) :: '-' ::
      dChar (a.day / 10 % 10) :: [dChar (a.day % 10)])
    (dChar (b.year / 1000 % 10) :: dChar (b.year / 100 % 10) :: dChar (b.year / 10 % 10) ::
      dChar (b.year % 10) :: '-' :: dChar (b.month / 10 % 10) :: dChar (b.month % 10) :: '-' ::
      dChar (b.day / 10 % 10) :: [dChar (b.day % 10)])
  rcases h with hy | ⟨hye, hm | ⟨hme, hd⟩⟩
  · have ea : a.year = 1000 * (a.year / 1000 % 10) + 100 * (a.year / 100 % 10) +
        10 * (a.year / 10 % 10) + a.year % 10 := by omega
    have eb : b.year = 1000 * (b.year / 1000 % 10) + 100 * (b.year / 100 % 10) +
        10 * (b.year / 10 % 10) + b.year % 10 := by omega
    have hsplit : a.year / 1000 % 10 < b.year / 1000 % 10 ∨
        (a.year / 1000 % 10 = b.year / 1000 % 10 ∧ (a.year / 100 % 10 < b.year / 100 % 10 ∨
        (a.year / 100 % 10 = b.year / 100 % 10 ∧ (a.year / 10 % 10 < b.year / 10 % 10 ∨
        (a.year / 10 % 10 = b.year / 10 % 10 ∧ a.year % 10 < b.year % 10))))) := by omega
    rcases hsplit with h1 | ⟨e1, h2 | ⟨e2, h3 | ⟨e3, h4⟩⟩⟩
    · exact List.Lex.rel (dChar_lt_dChar _ _ (Nat.mod_lt _ (by norm_num))
        (Nat.mod_lt _ (by norm_num)) h1)
    · rw [e1]
      exact List.Lex.cons (List.Lex.rel (dChar_lt_dChar _ _ (Nat.mod_lt _ (by norm_num))
        (Nat.mod_lt _ (by norm_num)) h2))
    · rw [e1, e2]
      exact List.Lex.cons (List.Lex.cons (List.Lex.rel (dChar_lt_dChar _ _
        (Nat.mod_lt _ (by norm_num)) (Nat.mod_lt _ (by norm_num)) h3)))
    · rw [e1, e2, e3]
      exact List.Lex.cons (List.Lex.cons (List.Lex.cons (List.Lex.rel (dChar_lt_dChar _ _
        (Nat.mod_lt _ (by norm_num)) (Nat.mod_lt _ (by norm_num)) h4))))
  · rw [hye]
    have hsplit : a.month / 10 % 10 < b.month / 10 % 10 ∨
        (a.month / 10 % 10 = b.month / 10 % 10 ∧ a.month % 10 < b.month % 10) := by omega
    rcases hsplit with h1 | ⟨e1, h2⟩
    · exact List.Lex.cons (List.Lex.cons (List.Lex.cons (List.Lex.cons (List.Lex.cons
        (List.Lex.rel (dChar_lt_dChar _ _ (Nat.mod_lt _ (by norm_num))
          (Nat.mod_lt _ (by norm_num)) h1))))))
    · rw [e1]
      exact List.Lex.cons (List.Lex.cons (List.Lex.cons (List.Lex.cons (List.Lex.cons
        (List.Lex.cons (List.Lex.rel (dChar_lt_dChar _ _ (Nat.mod_lt _ (by norm_num))
          (Nat.mod_lt _ (by norm_num)) h2)))))))
  · rw [hye, hme]
    have hsplit : a.day / 10 % 10 < b.day / 10 % 10 ∨
        (a.day / 10 % 10 = b.day / 10 % 10 ∧ a.day % 10 < b.day % 10) := by omega
    rcases hsplit with h1 | ⟨e1, h2⟩
    · exact List.Lex.cons (List.Lex.cons (List.Lex.cons (List.Lex.cons (List.Lex.cons
        (List.Lex.cons (List.Lex.cons (List.Lex.cons (List.Lex.rel (dChar_lt_dChar _ _
          (Nat.mod_lt _ (by norm_num)) (Nat.mod_lt _ (by norm_num)) h1)))))))))
    · rw [e1]
      exact List.Lex.cons (List.Lex.cons (List.Lex.cons (List.Lex.cons (List.Lex.cons
        (List.Lex.cons (List.Lex.cons (List.Lex.cons (List.Lex.cons (List.Lex.rel
          (dChar_lt_dChar _ _ (Nat.mod_lt _ (by norm_num))
            (Nat.mod_lt _ (by norm_num)) h2))))))))))

/-- C1: the spec claims a line matching the case-insensitive "today" decoy
marker contributes no date to any service even when preceded by a valid
heading.  `extract_collections` has no such exclusion: on this input the date
embedded in the decoy line "Today's date: 29/10/2025", which follows the
"Green Recycling Bin" heading, is attributed to recycling. -/
theorem c1_today_line_contributes_date :
    extract_collections ("Green Recycling Bin\nToday\x27s date: 29/10/2025") =
      Collections.mk [] ["2025-10-29"] [] := by
  decide

/-- C2: on the Scenario A input, `extract_collections` returns refuse =
["2025-10-29", "2025-11-12"] (the decoy date included), not the claimed
refuse = ["2025-11-12"]; recycling and garden match the claim. -/
theorem c2_scenarioA_actual_output :
    extract_collections
        ("Green Recycling Bin\nWed, 05/11/2025\nBrown Domestic Bin\n12/11/2025\nToday\x27s date: 29/10/2025") =
      Collections.mk ["2025-10-29", "2025-11-12"] ["2025-11-05"] [] ∧
    Collections.mk ["2025-10-29", "2025-11-12"] ["2025-11-05"] ([] : List String) ≠
      Collections.mk ["2025-11-12"] ["2025-11-05"] [] := by
  exact ⟨by decide, by decide⟩

/-- C3: for every input text and every service, the date list underlying the
output of `extract_collections` is strictly chronologically ascending and
duplicate-free; the returned string list is its image under `date.isoformat`,
is strictly ascending in the lexicographic string order (equivalently
chronological, given the zero-padded `YYYY-MM-DD` form), and contains no
duplicate. -/
theorem c3_lists_sorted_nodup (raw : String) (k : Service) :
    ((extract_dates raw).get k).Pairwise (fun a b => PDate.lt a b = true) ∧
    ((extract_dates raw).get k).Nodup ∧
    (extract_collections raw).get k = ((extract_dates raw).get k).map PDate.isoformat ∧
    ((extract_collections raw).get k).Pairwise (fun s1 s2 => s1 < s2) ∧
    ((extract_collections raw).get k).Nodup := by
  have hp : ((extract_dates raw).get k).Pairwise (fun a b => PDate.lt a b = true) := by
    unfold extract_dates
    rw [collections_get_fmap]
    exact pairwise_dedupSort _
  have hnd : ((extract_dates raw).get k).Nodup := nodup_of_pairwise_lt _ hp
  have hmapeq : (extract_collections raw).get k =
      ((extract_dates raw).get k).map PDate.isoformat := by
    unfold extract_collections
    rw [collections_get_fmap]
  refine ⟨hp, hnd, hmapeq, ?_, ?_⟩
  · rw [hmapeq, List.pairwise_map]
    refine List.Pairwise.imp_of_mem ?_ hp
    exact fun {x y} hx hy hr =>
      isoformat_lex x y (extract_dates_valid raw k x hx) (extract_dates_valid raw k y hy) hr
  · rw [hmapeq]
    exact List.Nodup.map_on
      (fun x hx y hy hxy =>
        isoformat_inj x y (extract_dates_valid raw k x hx) (extract_dates_valid raw k y hy) hxy)
      hnd

/-- C4 counterexample: the input consists of a single ISO timestamp line with
no resolvable service heading and no service keyword, yet the date is not
discarded — the pass-2 fallback of `extract_collections` assigns it to
recycling. -/
theorem c4_unattributed_iso_counterexample :
    (∀ l ∈ cleanLines ("2025-10-29T00:00:00"),
      classify_header l = none ∧ svcGuess l = none) ∧
    (extract_collections ("2025-10-29T00:00:00")).recycling = ["2025-10-29"] := by
  exact ⟨by decide, by decide⟩

/-- C4 amended: provided the text contains no `YYYY-MM-DDT` ISO timestamp (so
the pass-2 alternating fallback cannot fire), every date in the output of
`extract_collections` comes from a non-heading line whose date is attributed
to that service by the heading cursor or the in-line keyword guess; a date
attributed to no recognized service is discarded. -/
theorem c4_unattributed_discarded_amended (raw : String) (hiso : iso_candidates raw = [])
    (k : Service) (d : PDate) (hd : d ∈ (extract_dates raw).get k) :
    ∃ pre line post, cleanLines raw = pre ++ line :: post ∧ classify_header line = none ∧
      parse_any_date line = some d ∧
      ((cursorAfter none pre).orElse (fun _ => svcGuess line)) = some k := by
  unfold extract_dates at hd
  rw [collections_get_fmap, mem_dedupSort] at hd
  unfold withFallback at hd
  rw [if_neg] at hd
  · unfold pass1 at hd
    rcases mem_pass1_attrib (cleanLines raw) (none, Collections.mk [] [] []) k d hd with
      hbase | hattr
    · cases k <;> exact absurd hbase (by simp [Collections.get])
    · exact hattr
  · rw [hiso]
    simp [dedupSort]

/-- C4 witness: a date with a resolvable heading on the amended theorem. -/
theorem c4_witness :
    iso_candidates ("Green Recycling Bin\n05/11/2025") = [] ∧
    (∃ pre line post,
      cleanLines ("Green Recycling Bin\n05/11/2025") = pre ++ line :: post ∧
      classify_header line = none ∧ parse_any_date line = some (PDate.mk 2025 11 5) ∧
      ((cursorAfter none pre).orElse (fun _ => svcGuess line)) = some Service.recycling) := by
  refine ⟨by decide, ?_⟩
  exact c4_unattributed_discarded_amended _ (by decide) Service.recycling (PDate.mk 2025 11 5)
    (by decide)

/-- C5: after `set_cache`, `get_cache` on the same key returns the stored
payload exactly when `now - ts` is at most the ttl and a miss otherwise; on a
store holding no row for the key it returns the miss value `none` (no
exception path exists); and `set_cache` leaves exactly one row for the key,
the new one, whatever the store held before. -/
theorem c5_cache_contract {α : Type} (db : CacheDB α) (k : String) (r : α) (t now ttl : Int)
    (ttlq : Option Int) :
    get_cache (set_cache db k r t) k (some ttl) now =
      (if now - t ≤ ttl then some r else none) ∧
    get_cache (removeKey db k) k ttlq now = none ∧
    entriesFor (set_cache db k r t) k = [(t, r)] := by
  refine ⟨?_, ?_, ?_⟩
  · unfold get_cache set_cache
    rw [List.find?_cons_of_pos _ (by simp)]
    dsimp only
    rcases le_or_lt (now - t) ttl with hle | hlt
    · rw [if_neg (show ¬ now - t > ttl by omega), if_pos hle]
    · rw [if_pos (show now - t > ttl by omega), if_neg (show ¬ now - t ≤ ttl by omega)]
  · unfold get_cache
    rw [List.find?_eq_none.mpr (removeKey_no_match db k)]
  · unfold entriesFor set_cache
    rw [List.filter_cons_of_pos (by simp), List.filter_filter]
    rw [show List.filter (fun a => decide (a.1 = k) && !(decide (a.1 = k))) db = [] from
      List.filter_eq_nil_iff.mpr (fun a _ => by simp)]
    rfl

/-- C6: for every collections structure with duplicate-free per-service lists
(the ScheduleRecord invariant), `build_ics` produces exactly
refuse+recycling+garden many events, an event belongs to the calendar exactly
when it is the event of some (service, date) entry, and no event is
duplicated — one event per pair, no extras, no omissions. -/
theorem c6_build_ics_events (c : Collections (List String))
    (h1 : c.refuse.Nodup) (h2 : c.recycling.Nodup) (h3 : c.garden.Nodup) :
    (build_ics c).length = c.refuse.length + c.recycling.length + c.garden.length ∧
    (∀ e, e ∈ build_ics c ↔
      ((∃ ds ∈ c.refuse, e = eventFor ("refuse") ds) ∨
       (∃ ds ∈ c.recycling, e = eventFor ("recycling") ds) ∨
       (∃ ds ∈ c.garden, e = eventFor ("garden") ds))) ∧
    (build_ics c).Nodup := by
  refine ⟨?_, ?_, ?_⟩
  · unfold build_ics eventsFor
    simp [List.length_append]
    omega
  · intro e
    unfold build_ics
    simp only [List.mem_append, mem_eventsFor]
    exact or_assoc
  · unfold build_ics
    rw [List.nodup_append, List.nodup_append]
    refine ⟨⟨nodup_eventsFor _ _ h1, nodup_eventsFor _ _ h2,
      eventsFor_disjoint _ _ _ _ (by decide)⟩, nodup_eventsFor _ _ h3, ?_⟩
    intro e he
    rcases List.mem_append.mp he with he1 | he2
    · exact eventsFor_disjoint _ _ _ _ (by decide) he1
    · exact eventsFor_disjoint _ _ _ _ (by decide) he2

/-- C6 witness: a two-entry record on the theorem. -/
theorem c6_witness :
    (build_ics (Collections.mk ["2025-11-12"] ["2025-11-05"] [])).length = 2 := by
  have h := c6_build_ics_events (Collections.mk ["2025-11-12"] ["2025-11-05"] [])
    (by decide) (by decide) (by decide)
  simpa using h.1

/-- C7 counterexample: the calendar title map of `build_ics` sends refuse to
"Refuse (brown)", not to the claimed "Refuse (brown bin)"; the produced event
name is "Refuse (brown) bin collection". -/
theorem c7_title_counterexample :
    service_title ("refuse") = "Refuse (brown)" ∧
    service_title ("refuse") ≠ "Refuse (brown bin)" ∧
    (eventFor ("refuse") ("2025-11-05")).name = "Refuse (brown) bin collection" := by
  exact ⟨by decide, by decide, by decide⟩

/-- C7 amended: every calendar event title is the `build_ics` map value plus
" bin collection", where the map sends refuse to "Refuse (brown)", recycling
to "Recycling (green)", garden to "Garden waste" and any unknown key to its
Python `str.title` form; the claimed "(brown bin)" / "(green bin)" labels are
the notifier's map in notify.py, which also falls back to `str.title`. -/
theorem c7_titles_amended (svc other : String)
    (h : other ≠ "refuse" ∧ other ≠ "recycling" ∧ other ≠ "garden") :
    (∀ ds, (eventFor svc ds).name = service_title svc ++ " bin collection") ∧
    service_title ("refuse") = "Refuse (brown)" ∧
    service_title ("recycling") = "Recycling (green)" ∧
    service_title ("garden") = "Garden waste" ∧
    service_title other = str_title other ∧
    notify_label ("refuse") = "Refuse (brown bin)" ∧
    notify_label ("recycling") = "Recycling (green bin)" ∧
    notify_label ("garden") = "Garden waste" ∧
    notify_label other = str_title other := by
  refine ⟨fun ds => rfl, by decide, by decide, by decide, ?_, by decide, by decide, by decide, ?_⟩
  · unfold service_title
    rw [if_neg h.1, if_neg h.2.1, if_neg h.2.2]
  · unfold notify_label
    rw [if_neg h.1, if_neg h.2.1, if_neg h.2.2]

/-- C7 witness: an unknown key on the amended theorem. -/
theorem c7_witness :
    notify_label ("food") = str_title ("food") ∧
    service_title ("food") = str_title ("food") := by
  have h := c7_titles_amended ("food") ("food") (by exact ⟨by decide, by decide, by decide⟩)
  exact ⟨h.2.2.2.2.2.2.2.2, h.2.2.2.2.1⟩

/-- C8: with force mode off, the reminder evaluator computes tomorrow as
today plus one day; for a well-formed record a label is collected exactly
when some service's list contains tomorrow's ISO date and it is that
service's human-readable title; no due service yields no notification; and a
sent message is exactly the composition listing the due services' titles. -/
theorem c8_reminder_evaluator (cols : List (String × List String)) (today : PDate)
    (pc hint : String) (hv : ValidDate today) (hy : today.year ≤ 9998)
    (hwf : ∀ p ∈ cols, ∀ s ∈ p.2, canonicalStr s = true) :
    (∀ lab, lab ∈ due_services cols (next_day today) ↔
      ∃ p ∈ cols, PDate.isoformat (next_day today) ∈ p.2 ∧ lab = notify_label p.1) ∧
    (notify_decision cols pc hint today = none ↔
      due_services cols (next_day today) = []) ∧
    (∀ msg, notify_decision cols pc hint today = some msg →
      msg = reminder_message pc hint (next_day today) (due_services cols (next_day today))) := by
  have hvt := next_day_valid today hv hy
  refine ⟨fun lab => mem_due_services cols (next_day today) lab hvt hwf, ?_, ?_⟩
  · unfold notify_decision
    split
    · next hnil => simp [hnil]
    · next hnil => simp [hnil]
  · intro msg hmsg
    unfold notify_decision at hmsg
    split at hmsg
    · exact absurd hmsg (by simp)
    · exact ((Option.some.injEq _ _).mp hmsg).symm

/-- C8 witness: Scenario B shape on the theorem — tomorrow 2025-11-05 and a
recycling record containing it collect exactly the recycling title. -/
theorem c8_witness :
    "Recycling (green bin)" ∈
      due_services [(("recycling"), ["2025-11-05"])] (next_day (PDate.mk 2025 11 4)) := by
  have h := c8_reminder_evaluator [(("recycling"), ["2025-11-05"])] (PDate.mk 2025 11 4)
    ("PL6 5HX") ("72 Windermere") (by unfold ValidDate; decide) (by decide) (by decide)
  exact (h.1 ("Recycling (green bin)")).mpr
    ⟨("recycling", ["2025-11-05"]), by decide, by decide, by decide⟩

/-- C9: the claim says an all-empty extraction is surfaced rather than
returned indistinguishably.  The `scrape` pipeline has no such guard: on a
raw text yielding zero dates it assembles and returns an ordinary successful
record with all-empty collections and no distinguishing marker. -/
theorem c9_empty_record_emitted (scraped_at : String) :
    scrape_record ("PL6 5HX") ("72 Windermere") ("") scraped_at =
      ScheduleRecord.mk ("PL6 5HX") ("72 Windermere") (Collections.mk [] [] []) scraped_at := by
  unfold scrape_record
  rw [show normalise_postcode ("PL6 5HX") = "PL6 5HX" from by decide,
    show extract_collections ("") = Collections.mk [] [] [] from by decide]

/-- C10 counterexample: on a line holding two distinct date substrings,
"12/11/2025" first and "27 October 2025" second, the contributed date is
2025-10-27 — the match of the earlier-ordered month-name pattern — and not
the positionally first substring's 2025-11-12. -/
theorem c10_first_date_counterexample :
    extract_collections ("Brown Domestic Bin\n12/11/2025 27 October 2025") =
      Collections.mk ["2025-10-27"] [] [] ∧
    (["2025-10-27"] : List String) ≠ ["2025-11-12"] := by
  exact ⟨by decide, by decide⟩

/-- C10 amended: each line contributes at most one date to the pass-1
accumulator, namely the first match of the first pattern (in the fixed order
month-name, slash/dash numeric, ISO stamp) that matches and parses; when the
month-name pattern yields a date, that date is the line's date even if a
substring matching a later pattern occurs earlier in the line. -/
theorem c10_at_most_one_amended (st : Option Service × Collections (List PDate))
    (line : List Char) :
    colTotal (pass1Step st line).2 ≤ colTotal st.2 + 1 ∧
    (∀ d, p1date line = some d → parse_any_date line = some d) := by
  constructor
  · unfold pass1Step
    rcases hc : classify_header line with _ | s
    · rcases hp : parse_any_date line with _ | d
      · simp only [hc, hp]
        omega
      · simp only [hc, hp]
        rcases hr : (st.1).orElse (fun _ => svcGuess line) with _ | k
        · simp only [hr]
          omega
        · simp only [hr]
          cases k <;> simp [colTotal, Collections.app, List.length_append] <;> omega
    · simp only [hc]
      omega
  · intro d hd
    unfold parse_any_date
    rw [hd]
    rfl

/-- C10 witness: the month-name date of the counterexample line on the
amended theorem. -/
theorem c10_witness :
    parse_any_date (lit ("12/11/2025 27 October 2025")) = some (PDate.mk 2025 10 27) := by
  exact (c10_at_most_one_amended (none, Collections.mk [] [] [])
    (lit ("12/11/2025 27 October 2025"))).2 (PDate.mk 2025 10 27) (by decide)
